import Mathlib

/-!
Formal model of the slot-allocation bot (src/db.py and src/bot.py) and
theorems settling claims C1-C10.

Modelling conventions: a `List Image` models the SQLite `images` table in
ascending rowid order (the order every query in db.py requests, and an
order preserved by the UPDATE statements the code issues); insertion-ordered
association lists model the Python dicts `forwarded_msgs` and
`pending_custom_amounts`; side effects of the handlers (database writes,
outbound chat-transport calls) are reified as an explicit `Effect` list.
-/

namespace Spec2Proof

/-- A row of the `images` table of db.py: rowid, image_id (the primary key),
number (the group label), status ("open"/"closed"), the source_group_b_id
field of the metadata JSON blob, and queue_position. -/
structure Image where
  rowid : Nat
  image_id : String
  number : Nat
  status : String
  source_group_b_id : Option Int
  queue_position : Nat
deriving Repr, DecidableEq

/-- Models `max(row[-1] or 0 for row in all_rows)` of db.get_next_image_in_queue
(0 on the empty table, matching the early return there). -/
def maxPosition (rows : List Image) : Nat :=
  rows.foldr (fun r m => max r.queue_position m) 0

/-- Models `[row for row in all_rows if row[4] == 'open']`. -/
def openRows (rows : List Image) : List Image :=
  rows.filter (fun r => r.status == "open")

/-- Models `UPDATE images SET queue_position = ? WHERE image_id = ?`. -/
def setQueuePosition (imageId : String) (p : Nat) (rows : List Image) : List Image :=
  rows.map (fun r => if r.image_id == imageId then { r with queue_position := p } else r)

/-- The selection logic of db.get_next_image_in_queue: if no image was ever
sent (max queue_position 0) take the first open image; otherwise find the
row holding the maximum queue_position (first such row in rowid order) and
take the first open image with a larger rowid, cycling back to the first
open image when none exists (the code's final fallback also yields the
first open image). -/
def selectNext (rows : List Image) : Option Image :=
  match (openRows rows).head? with
  | none => none
  | some o =>
      let maxPos := maxPosition rows
      if maxPos = 0 then some o
      else
        match rows.find? (fun r => r.queue_position == maxPos) with
        | some last =>
            match (openRows rows).find? (fun r => decide (last.rowid < r.rowid)) with
            | some nxt => some nxt
            | none => some o
        | none => some o

/-- db.get_next_image_in_queue as a state transformer: returns the selected
image (the row as read, before the position update) and the table after
`UPDATE images SET queue_position = max_position + 1` for that image. -/
def get_next_image_in_queue (rows : List Image) : Option Image × List Image :=
  match selectNext rows with
  | none => (none, rows)
  | some img => (some img, setQueuePosition img.image_id (maxPosition rows + 1) rows)

/-- The table after n successive allocator calls. -/
def iterateQueue (rows : List Image) : Nat → List Image
  | 0 => rows
  | n + 1 => (get_next_image_in_queue (iterateQueue rows n)).2

/-- The image returned by the (n+1)-st allocator call (0-indexed n). -/
def nthCall (rows : List Image) (n : Nat) : Option Image :=
  (get_next_image_in_queue (iterateQueue rows n)).1

/-- Helper describing the table after k allocation rounds on a fresh table:
the first k rows carry queue positions p, p+1, ..., the rest are untouched. -/
def stampFrom (p : Nat) : Nat → List Image → List Image
  | 0, l => l
  | _ + 1, [] => []
  | k + 1, r :: l => { r with queue_position := p } :: stampFrom (p + 1) k l

theorem stampFrom_nil (p k : Nat) : stampFrom p k [] = [] := by
  cases k <;> rfl

theorem stampFrom_zero (p : Nat) (l : List Image) : stampFrom p 0 l = l := rfl

theorem stampFrom_cons (p k : Nat) (r : Image) (l : List Image) :
    stampFrom p (k + 1) (r :: l) =
      { r with queue_position := p } :: stampFrom (p + 1) k l := rfl

theorem length_stampFrom (l : List Image) :
    ∀ p k, (stampFrom p k l).length = l.length := by
  induction l with
  | nil => intro p k; rw [stampFrom_nil]
  | cons r t ih =>
      intro p k
      cases k with
      | zero => rfl
      | succ k => simp [stampFrom_cons, ih]

theorem stampFrom_get? (l : List Image) :
    ∀ p k i, (stampFrom p k l).get? i =
      (l.get? i).map (fun r => if i < k then { r with queue_position := p + i } else r) := by
  induction l with
  | nil => intro p k i; rw [stampFrom_nil]; cases i <;> rfl
  | cons r t ih =>
      intro p k i
      cases k with
      | zero =>
          rw [stampFrom_zero]
          cases hx : (r :: t).get? i with
          | none => simp [hx]
          | some x => simp [hx]
      | succ k =>
          cases i with
          | zero => simp [stampFrom_cons]
          | succ i =>
              simp only [stampFrom_cons, List.get?_cons_succ, ih (p + 1) k i]
              cases t.get? i with
              | none => rfl
              | some x =>
                  simp only [Option.map_some']
                  have : (p + 1) + i = p + (i + 1) := by omega
                  by_cases h : i < k
                  · simp [h, Nat.succ_lt_succ h, this]
                  · simp [h, fun hh => h (Nat.lt_of_succ_lt_succ hh)]

theorem maxPosition_nil : maxPosition [] = 0 := rfl

theorem maxPosition_cons (r : Image) (l : List Image) :
    maxPosition (r :: l) = max r.queue_position (maxPosition l) := rfl

theorem maxPosition_eq_zero {l : List Image} (h : ∀ r ∈ l, r.queue_position = 0) :
    maxPosition l = 0 := by
  induction l with
  | nil => rfl
  | cons r t ih =>
      rw [maxPosition_cons, h r (List.mem_cons_self r t), ih fun x hx => h x (List.mem_cons_of_mem r hx)]
      simp

theorem maxPosition_stampFrom {l : List Image} (h : ∀ r ∈ l, r.queue_position = 0) :
    ∀ p k, maxPosition (stampFrom (p + 1) k l) =
      if k = 0 ∨ l = [] then 0 else p + min k l.length := by
  induction l with
  | nil => intro p k; rw [stampFrom_nil]; simp [maxPosition_nil]
  | cons r t ih =>
      intro p k
      cases k with
      | zero =>
          simp [stampFrom_zero, maxPosition_eq_zero h]
      | succ k =>
          rw [stampFrom_cons, maxPosition_cons]
          have ht : ∀ x ∈ t, x.queue_position = 0 :=
            fun x hx => h x (List.mem_cons_of_mem r hx)
          rw [ih ht (p + 1) k]
          simp only [Nat.succ_ne_zero, false_or, List.cons_ne_nil, or_false, if_false,
            List.length_cons]
          by_cases hk : k = 0
          · subst hk; simp
          · by_cases hnil : t = []
            · subst hnil; simp
            · simp [hk, hnil]
              have : 0 < min k t.length := by
                rcases t with _ | ⟨a, t⟩
                · exact absurd rfl hnil
                · simp [Nat.lt_min]; omega
              omega

theorem openRows_eq_self {l : List Image} (h : ∀ r ∈ l, r.status = "open") :
    openRows l = l := by
  induction l with
  | nil => rfl
  | cons r t ih =>
      have hr : r.status = "open" := h r (List.mem_cons_self r t)
      have ht : openRows t = t := ih fun x hx => h x (List.mem_cons_of_mem r hx)
      simp [openRows, List.filter_cons, hr] at ht ⊢
      exact ht

theorem status_stampFrom {l : List Image} (h : ∀ r ∈ l, r.status = "open") :
    ∀ p k, ∀ r ∈ stampFrom p k l, r.status = "open" := by
  induction l with
  | nil => intro p k r hr; rw [stampFrom_nil] at hr; cases hr
  | cons a t ih =>
      intro p k r hr
      cases k with
      | zero => exact h r (stampFrom_zero p (a :: t) ▸ hr)
      | succ k =>
          rw [stampFrom_cons] at hr
          rcases List.mem_cons.mp hr with h1 | h2
          · subst h1; exact h a (List.mem_cons_self a t)
          · exact ih (fun x hx => h x (List.mem_cons_of_mem a hx)) (p + 1) k r h2

/-- find? over the stamped prefix: the row holding the maximum queue position
p + k is the k-th stamped row (the (k-1)-indexed element). -/
theorem find?_stampFrom_max {l : List Image} (h0 : ∀ r ∈ l, r.queue_position = 0) :
    ∀ p k lastRow, 1 ≤ k → l.get? (k - 1) = some lastRow →
      (stampFrom (p + 1) k l).find? (fun r => r.queue_position == p + k) =
        some { lastRow with queue_position := p + k } := by
  induction l with
  | nil => intro p k lastRow hk hget; simp at hget
  | cons r t ih =>
      intro p k lastRow hk hget
      cases k with
      | zero => omega
      | succ k =>
          rw [stampFrom_cons]
          cases k with
          | zero =>
              simp at hget
              subst hget
              simp [List.find?_cons]
          | succ k =>
              rw [List.find?_cons]
              have hq : ((({ r with queue_position := p + 1 } : Image).queue_position
                  == p + (k + 1 + 1)) = false) := by
                simp
              rw [hq]
              have ht0 : ∀ x ∈ t, x.queue_position = 0 :=
                fun x hx => h0 x (List.mem_cons_of_mem r hx)
              have hget2 : t.get? (k + 1 - 1) = some lastRow := by
                simpa using hget
              have hrec := ih ht0 (p + 1) (k + 1) lastRow (by omega) hget2
              have harith : (p + 1) + (k + 1) = p + (k + 1 + 1) := by omega
              rw [harith] at hrec
              exact hrec

/-- find? over a sorted stamped list for a row with rowid strictly greater
than that of the (k-1)-indexed row: it is the k-indexed row (none when k is
the length, which is the cycling-back case). -/
theorem find?_gt_rowid {l : List Image}
    (hsort : l.Pairwise (fun a b => a.rowid < b.rowid)) :
    ∀ p k lastRow, 1 ≤ k → l.get? (k - 1) = some lastRow →
      (stampFrom p k l).find? (fun r => decide (lastRow.rowid < r.rowid)) = l.get? k := by
  induction l with
  | nil => intro p k lastRow hk hget; simp at hget
  | cons r t ih =>
      intro p k lastRow hk hget
      have hcons := List.pairwise_cons.mp hsort
      cases k with
      | zero => omega
      | succ k =>
          rw [stampFrom_cons, List.find?_cons]
          cases k with
          | zero =>
              simp at hget
              subst hget
              simp only [Nat.lt_irrefl, decide_False]
              rw [stampFrom_zero]
              cases t with
              | nil => rfl
              | cons s u =>
                  have hs : r.rowid < s.rowid := hcons.1 s (List.mem_cons_self s u)
                  simp [List.find?_cons, hs]
          | succ k =>
              have hmem : lastRow ∈ t := by
                have : t.get? k = some lastRow := by simpa using hget
                exact List.get?_mem this
              have hlt : r.rowid < lastRow.rowid := hcons.1 lastRow hmem
              have : decide (lastRow.rowid < Image.rowid { r with queue_position := p }) = false := by
                simp; omega
              rw [this]
              have hget2 : t.get? (k + 1 - 1) = some lastRow := by simpa using hget
              have := ih hcons.2 (p + 1) (k + 1) lastRow (by omega) hget2
              rw [this]
              simp

/-- Rows whose image_id differs from the updated key are untouched. -/
theorem setQueuePosition_not_mem {l : List Image} {tgt : String}
    (h : ∀ x ∈ l, x.image_id ≠ tgt) (p : Nat) : setQueuePosition tgt p l = l := by
  induction l with
  | nil => rfl
  | cons r t ih =>
      have hr : r.image_id ≠ tgt := h r (List.mem_cons_self r t)
      have ht := ih fun x hx => h x (List.mem_cons_of_mem r hx)
      simp [setQueuePosition, hr] at ht ⊢
      exact ht

/-- The queue-position update the allocator performs on the k-th image of a
fresh table extends the stamped prefix by one. -/
theorem setQueuePosition_stampFrom {l : List Image}
    (hid : (l.map Image.image_id).Nodup) :
    ∀ p k tgt, l.get? k = some tgt →
      setQueuePosition tgt.image_id (p + k + 1) (stampFrom (p + 1) k l) =
        stampFrom (p + 1) (k + 1) l := by
  induction l with
  | nil => intro p k tgt hget; simp at hget
  | cons r t ih =>
      intro p k tgt hget
      rw [List.map_cons, List.nodup_cons] at hid
      cases k with
      | zero =>
          have hr : r = tgt := by simpa using hget
          subst hr
          rw [stampFrom_zero, stampFrom_cons, stampFrom_zero]
          have htail : ∀ x ∈ t, x.image_id ≠ r.image_id := by
            intro x hx hxeq
            exact hid.1 (hxeq ▸ List.mem_map_of_mem Image.image_id hx)
          have ht := setQueuePosition_not_mem htail (p + 0 + 1)
          simp only [setQueuePosition, List.map_cons] at ht ⊢
          rw [ht]
          simp
      | succ k =>
          have hget2 : t.get? k = some tgt := by simpa using hget
          have hmem : tgt ∈ t := List.get?_mem hget2
          have hcond : ((({ r with queue_position := p + 1 } : Image).image_id
              == tgt.image_id) = true) → False := by
            simp only [beq_iff_eq]
            intro hcontra
            exact hid.1 (hcontra ▸ List.mem_map_of_mem Image.image_id hmem)
          rw [stampFrom_cons, stampFrom_cons]
          have hrec := ih hid.2 (p + 1) k tgt hget2
          have harith : p + 1 + k + 1 = p + (k + 1) + 1 := by omega
          rw [harith] at hrec
          simp only [setQueuePosition, List.map_cons] at hrec ⊢
          rw [if_neg hcond, hrec]

theorem maxPosition_stampFrom_lt {l : List Image} (h0 : ∀ r ∈ l, r.queue_position = 0)
    {k : Nat} (hk : k ≤ l.length) : maxPosition (stampFrom 1 k l) = k := by
  have h := maxPosition_stampFrom h0 0 k
  simp only [Nat.zero_add] at h
  by_cases hk0 : k = 0
  · subst hk0
    simpa using h
  · have hnil : l ≠ [] := by
      intro hcontra
      subst hcontra
      simp at hk
      exact hk0 hk
    rw [if_neg (by simp [hk0, hnil] : ¬ (k = 0 ∨ l = []))] at h
    rw [h]
    omega

theorem head?_stampFrom {l : List Image} {l0 : Image} (hl0 : l.get? 0 = some l0) (k : Nat) :
    (stampFrom 1 k l).head? = some (if 0 < k then { l0 with queue_position := 1 } else l0) := by
  rw [← List.get?_zero, stampFrom_get? l 1 k 0, hl0]
  simp

/-- One allocator call on a fresh all-open table with the first k images
already cycled: it selects the k-indexed image (in rowid order) and stamps
it with queue position k + 1. -/
theorem step_lt {l : List Image}
    (hsort : l.Pairwise (fun a b => a.rowid < b.rowid))
    (hid : (l.map Image.image_id).Nodup)
    (hopen : ∀ r ∈ l, r.status = "open")
    (h0 : ∀ r ∈ l, r.queue_position = 0)
    {k : Nat} (hk : k < l.length) {tgt : Image} (hget : l.get? k = some tgt) :
    get_next_image_in_queue (stampFrom 1 k l) = (some tgt, stampFrom 1 (k + 1) l) := by
  have hOpenStamp := status_stampFrom hopen 1 k
  have hOpenEq : openRows (stampFrom 1 k l) = stampFrom 1 k l := openRows_eq_self hOpenStamp
  have hmax : maxPosition (stampFrom 1 k l) = k := maxPosition_stampFrom_lt h0 (Nat.le_of_lt hk)
  obtain ⟨l0, hl0⟩ : ∃ x, l.get? 0 = some x := by
    rw [List.get?_eq_get (by omega)]
    exact ⟨_, rfl⟩
  have hhead := head?_stampFrom hl0 k
  have hsel : selectNext (stampFrom 1 k l) = some tgt := by
    cases k with
    | zero =>
        have htgt0 : l0 = tgt := by rw [hl0] at hget; injection hget
        subst htgt0
        rw [selectNext, hOpenEq, hhead, hmax]
        simp
    | succ k =>
        obtain ⟨lastRow, hlast⟩ : ∃ x, l.get? (k + 1 - 1) = some x := by
          rw [List.get?_eq_get (by omega)]
        -- the row holding the maximum position
          exact ⟨_, rfl⟩
        have hfindmax := find?_stampFrom_max h0 0 (k + 1) lastRow (by omega) hlast
        simp only [Nat.zero_add] at hfindmax
        have hfindnext := find?_gt_rowid hsort 1 (k + 1) lastRow (by omega) hlast
        rw [selectNext, hOpenEq, hhead, hmax]
        simp only [Nat.succ_ne_zero, if_false]
        rw [hfindmax]
        have hrowid : ({ lastRow with queue_position := k + 1 } : Image).rowid = lastRow.rowid := rfl
        simp only [hrowid]
        rw [hfindnext, hget]
  rw [get_next_image_in_queue, hsel, hmax]
  have hupd := setQueuePosition_stampFrom hid 0 k tgt hget
  simp only [Nat.zero_add] at hupd
  simp [hupd]

/-- The allocator call after a full cycle over a fresh all-open table wraps
back to the first image in rowid order. -/
theorem step_wrap {l : List Image}
    (hsort : l.Pairwise (fun a b => a.rowid < b.rowid))
    (hopen : ∀ r ∈ l, r.status = "open")
    (h0 : ∀ r ∈ l, r.queue_position = 0)
    (hM : 0 < l.length) {l0 : Image} (hl0 : l.get? 0 = some l0) :
    (get_next_image_in_queue (stampFrom 1 l.length l)).1 =
      some { l0 with queue_position := 1 } := by
  have hOpenStamp := status_stampFrom hopen 1 l.length
  have hOpenEq := openRows_eq_self hOpenStamp
  have hmax : maxPosition (stampFrom 1 l.length l) = l.length :=
    maxPosition_stampFrom_lt h0 (Nat.le_refl _)
  have hhead := head?_stampFrom hl0 l.length
  obtain ⟨lastRow, hlast⟩ : ∃ x, l.get? (l.length - 1) = some x := by
    rw [List.get?_eq_get (by omega)]
    exact ⟨_, rfl⟩
  have hfindmax := find?_stampFrom_max h0 0 l.length lastRow (by omega) hlast
  simp only [Nat.zero_add] at hfindmax
  have hfindnext := find?_gt_rowid hsort 1 l.length lastRow (by omega) hlast
  have hnone : l.get? l.length = none := by
    rw [List.get?_eq_none]
  have hsel : selectNext (stampFrom 1 l.length l) = some { l0 with queue_position := 1 } := by
    rw [selectNext, hOpenEq, hhead, hmax]
    have hlen0 : ¬ (l.length = 0) := by omega
    simp only [hlen0, if_false]
    rw [hfindmax]
    have hrowid : ({ lastRow with queue_position := l.length } : Image).rowid = lastRow.rowid := rfl
    simp only [hrowid]
    rw [hfindnext, hnone]
    simp [hM]
  rw [get_next_image_in_queue, hsel]

theorem iterateQueue_stampFrom {l : List Image}
    (hsort : l.Pairwise (fun a b => a.rowid < b.rowid))
    (hid : (l.map Image.image_id).Nodup)
    (hopen : ∀ r ∈ l, r.status = "open")
    (h0 : ∀ r ∈ l, r.queue_position = 0) :
    ∀ k, k ≤ l.length → iterateQueue l k = stampFrom 1 k l := by
  intro k
  induction k with
  | zero => intro _; rfl
  | succ k ih =>
      intro hk1
      have hk : k < l.length := by omega
      obtain ⟨tgt, htgt⟩ : ∃ x, l.get? k = some x := by
        rw [List.get?_eq_get hk]
        exact ⟨_, rfl⟩
      show (get_next_image_in_queue (iterateQueue l k)).2 = _
      rw [ih (by omega), step_lt hsort hid hopen h0 hk htgt]

/-- C1 (round-robin allocation): on a table of M >= 1 open images with no
allocation recorded yet (all queue positions 0), listed in ascending rowid
order with distinct image ids, the (k+1)-st call of
db.get_next_image_in_queue returns the k-indexed image — so M successive
calls return each open image exactly once in creation (rowid) order — the
(M+1)-st call wraps back to the first image, the maximum queue position
before the (k+1)-st call is k, and the call stamps the chosen image with
queue position k + 1 (previous maximum plus one). -/
theorem queue_round_robin {rows : List Image}
    (hsort : rows.Pairwise (fun a b => a.rowid < b.rowid))
    (hid : (rows.map Image.image_id).Nodup)
    (hopen : ∀ r ∈ rows, r.status = "open")
    (h0 : ∀ r ∈ rows, r.queue_position = 0)
    (hM : 0 < rows.length) :
    (∀ k, k < rows.length →
      nthCall rows k = rows.get? k
      ∧ maxPosition (iterateQueue rows k) = k
      ∧ ((iterateQueue rows (k + 1)).get? k).map Image.queue_position = some (k + 1)
      ∧ ((iterateQueue rows (k + 1)).get? k).map Image.image_id =
          (rows.get? k).map Image.image_id)
    ∧ (nthCall rows rows.length).map Image.image_id =
        (rows.get? 0).map Image.image_id := by
  constructor
  · intro k hk
    obtain ⟨tgt, htgt⟩ : ∃ x, rows.get? k = some x := by
      rw [List.get?_eq_get hk]
      exact ⟨_, rfl⟩
    have hiter := iterateQueue_stampFrom hsort hid hopen h0 k (Nat.le_of_lt hk)
    have hstep := step_lt hsort hid hopen h0 hk htgt
    have hiter1 := iterateQueue_stampFrom hsort hid hopen h0 (k + 1) hk
    refine ⟨?_, ?_, ?_, ?_⟩
    · rw [nthCall, hiter, hstep, htgt]
    · rw [hiter, maxPosition_stampFrom_lt h0 (Nat.le_of_lt hk)]
    · rw [hiter1, stampFrom_get? rows 1 (k + 1) k, htgt]
      simp [Nat.lt_succ_self, Nat.add_comm]
    · rw [hiter1, stampFrom_get? rows 1 (k + 1) k, htgt]
      simp
  · obtain ⟨l0, hl0⟩ : ∃ x, rows.get? 0 = some x := by
      rw [List.get?_eq_get hM]
      exact ⟨_, rfl⟩
    have hiter := iterateQueue_stampFrom hsort hid hopen h0 rows.length (Nat.le_refl _)
    rw [nthCall, hiter, step_wrap hsort hopen h0 hM hl0, hl0]
    rfl

/-- Witness for the round-robin theorem: three open images created in rowid
order with labels 10, 20, 30, matching the scenario of the specification:
the fourth call wraps back to the first image. -/
theorem queue_round_robin_witness :
    (nthCall [⟨1, "a", 10, "open", none, 0⟩, ⟨2, "b", 20, "open", none, 0⟩,
        ⟨3, "c", 30, "open", none, 0⟩] 3).map Image.image_id = some "a" := by
  have h := @queue_round_robin
    [⟨1, "a", 10, "open", none, 0⟩, ⟨2, "b", 20, "open", none, 0⟩,
        ⟨3, "c", 30, "open", none, 0⟩]
    (by decide) (by decide) (by decide) (by decide) (by decide)
  exact h.2

/-- Association-list lookup modelling `source_group_b_id in group_b_percentages`
followed by the dict access `group_b_percentages[source_group_b_id]`. -/
def lookupPct (percentages : List (Int × Nat)) (g : Int) : Option Nat :=
  (percentages.find? (fun q => q.1 == g)).map (fun q => q.2)

/-- db.get_next_image_in_queue_with_percentage.  The Python code retries a
failed percentage draw with the unguarded recursive call
`get_next_image_in_queue_with_percentage(group_b_percentages)`; `fuel`
models the interpreter's recursion limit, and exhausting it corresponds to
the RecursionError that the surrounding `except` clause turns into a `None`
return.  `draws` is the stream of `random.randint(1, 100)` values and `di`
the index of the next draw. -/
def get_next_image_in_queue_with_percentage
    (percentages : List (Int × Nat)) (draws : Nat → Nat) :
    Nat → Nat → List Image → Option Image × List Image × Nat
  | 0, di, rows => (none, rows, di)
  | fuel + 1, di, rows =>
      match get_next_image_in_queue rows with
      | (none, rows2) => (none, rows2, di)
      | (some img, rows2) =>
          if percentages = [] then (some img, rows2, di)
          else
            match img.source_group_b_id with
            | some g =>
                match lookupPct percentages g with
                | some pct =>
                    if draws di ≤ pct then (some img, rows2, di + 1)
                    else get_next_image_in_queue_with_percentage percentages draws fuel (di + 1) rows2
                | none => (some img, rows2, di)
            | none => (some img, rows2, di)

theorem get_next_single {i : Image} (hopen : i.status = "open") :
    get_next_image_in_queue [i] =
      (some i, [{ i with queue_position := i.queue_position + 1 }]) := by
  by_cases hp : i.queue_position = 0
  · simp [get_next_image_in_queue, selectNext, openRows, maxPosition, setQueuePosition,
      hopen, hp]
  · simp [get_next_image_in_queue, selectNext, openRows, maxPosition, setQueuePosition,
      hopen, hp, List.find?]

/-- C4 is false of the code: on a table holding a single open image whose
source fulfillment room is gated at percentage 0 (so every draw of
`random.randint(1, 100)` fails), the allocator re-selects that same image
on every retry, bumping its queue position each time, for as long as the
recursion limit allows; it never returns Empty by exhausting one pass over
the open slots. -/
theorem percentage_retry_unbounded {img0 : Image} {g : Int}
    (hopen : img0.status = "open") (hsrc : img0.source_group_b_id = some g)
    (draws : Nat → Nat) (hdraws : ∀ i, 1 ≤ draws i) :
    ∀ fuel p di,
      get_next_image_in_queue_with_percentage [(g, 0)] draws fuel di
          [{ img0 with queue_position := p }] =
        (none, [{ img0 with queue_position := p + fuel }], di + fuel) := by
  intro fuel
  induction fuel with
  | zero => intro p di; simp [get_next_image_in_queue_with_percentage]
  | succ fuel ih =>
      intro p di
      have hopen2 : ({ img0 with queue_position := p } : Image).status = "open" := hopen
      have hns : ¬ (draws di ≤ 0) := by
        have := hdraws di
        omega
      rw [get_next_image_in_queue_with_percentage, get_next_single hopen2]
      have hrec := ih (p + 1) (di + 1)
      have h1 : p + 1 + fuel = p + (fuel + 1) := by omega
      have h2 : di + 1 + fuel = di + (fuel + 1) := by omega
      rw [h1, h2] at hrec
      rw [hsrc] at hrec
      simp [hsrc, lookupPct, hns, hrec]

/-- Witness instantiating the unbounded-retry theorem: with recursion budget
3 the single gated slot is selected three times within the one allocation
call (its queue position ends at 3) and the call still yields None. -/
theorem percentage_retry_unbounded_witness :
    get_next_image_in_queue_with_percentage [((5 : Int), 0)] (fun _ => 100) 3 0
        [⟨1, "a", 10, "open", some 5, 0⟩] =
      (none, [⟨1, "a", 10, "open", some 5, 3⟩], 3) := by
  have h := @percentage_retry_unbounded ⟨1, "a", 10, "open", some 5, 0⟩
    5 rfl rfl (fun _ => 100) (fun _ => by show (1 : Nat) ≤ 100; decide) 3 0 0
  simpa using h

/-- bot.get_group_b_for_image.  `h` is the process's string hash — Python's
`hash` on str is salted per process, so the hash function is a parameter of
the model; `groupBIds` is the list copy of GROUP_B_IDS; `meta` the
source_group_b_id field of the image metadata.  Returns the resolved room
together with the metadata field after the call (the code persists the
computed mapping via db.update_image_metadata before returning). -/
def get_group_b_for_image (h : String → Int) (groupBIds : List Int)
    (imageId : String) (meta : Option Int) : Option Int × Option Int :=
  let fallbackPick : Option Int × Option Int :=
    match groupBIds with
    | [] => (none, meta)
    | b :: bs =>
        let room := (b :: bs).get
          ⟨(h imageId).natAbs % (b :: bs).length, Nat.mod_lt _ (Nat.succ_pos bs.length)⟩
        (some room, some room)
  match meta with
  | some g => if g ∈ groupBIds then (some g, some g) else fallbackPick
  | none => fallbackPick

/-- C3 is false as stated: the room chosen for a slot with no persisted
mapping depends on the process's hash salt, i.e. it is not computed from a
content-stable hash.  Two processes whose salted hashes of "img_1" differ
resolve the same slot, under the same two-room configuration, to different
rooms. -/
theorem affinity_hash_not_content_stable :
    (get_group_b_for_image (fun _ => 0) [100, 200] "img_1" none).1 = some 100
    ∧ (get_group_b_for_image (fun _ => 1) [100, 200] "img_1" none).1 = some 200
    ∧ (100 : Int) ≠ 200 := by
  refine ⟨rfl, rfl, by decide⟩

/-- C3 amended: repeated resolution is stable — once a first call has run
(under any hash salt), every later call (under any, possibly different,
hash salt) with the persisted metadata and the unchanged room set returns
the same room and leaves the metadata unchanged.  Stability, including
across restarts, comes from the persisted mapping, not from the hash. -/
theorem affinity_resolution_idempotent (h1 h2 : String → Int) (groupBIds : List Int)
    (imageId : String) (meta : Option Int) (hne : groupBIds ≠ []) :
    get_group_b_for_image h2 groupBIds imageId
        (get_group_b_for_image h1 groupBIds imageId meta).2 =
      ((get_group_b_for_image h1 groupBIds imageId meta).1,
       (get_group_b_for_image h1 groupBIds imageId meta).2) := by
  obtain ⟨b, bs, rfl⟩ : ∃ b bs, groupBIds = b :: bs := by
    cases groupBIds with
    | nil => exact absurd rfl hne
    | cons b bs => exact ⟨b, bs, rfl⟩
  have hmem : ∀ hh : String → Int,
      (b :: bs).get ⟨(hh imageId).natAbs % (b :: bs).length,
        Nat.mod_lt _ (Nat.succ_pos bs.length)⟩ ∈ (b :: bs) := fun hh => List.get_mem _ _ _
  cases meta with
  | none =>
      simp only [get_group_b_for_image]
      rw [if_pos (hmem h1)]
  | some g =>
      by_cases hg : g ∈ (b :: bs)
      · simp only [get_group_b_for_image, if_pos hg]
      · simp only [get_group_b_for_image, if_neg hg]
        rw [if_pos (hmem h1)]

/-- Witness for the idempotence theorem at a concrete configuration: the
first resolution under one salt picks room 100 and persists it; a second
resolution under a different salt returns the same room. -/
theorem affinity_resolution_idempotent_witness :
    ([100, 200] : List Int) ≠ []
    ∧ get_group_b_for_image (fun _ => 1) [100, 200] "img_7"
        (get_group_b_for_image (fun _ => 0) [100, 200] "img_7" none).2 =
      ((get_group_b_for_image (fun _ => 0) [100, 200] "img_7" none).1,
       (get_group_b_for_image (fun _ => 0) [100, 200] "img_7" none).2) :=
  ⟨by decide,
   affinity_resolution_idempotent (fun _ => 0) (fun _ => 1) [100, 200] "img_7" none
     (by decide)⟩

/-- Models Python str.strip(): drop whitespace from both ends. -/
def pyStrip (s : String) : String :=
  String.mk (((s.data.dropWhile Char.isWhitespace).reverse.dropWhile Char.isWhitespace).reverse)

/-- Models the Python substring test `sub in s`. -/
def strContainsSub (s sub : String) : Bool :=
  decide (sub.data <:+: s.data)

/-- Helper for `re.findall(r'\d+', text)`: accumulates the current digit run
(in reverse) while scanning. -/
def digitRunsAux : List Char → List Char → List String
  | cur, [] => if cur.isEmpty then [] else [String.mk cur.reverse]
  | cur, c :: cs =>
      if c.isDigit then digitRunsAux (c :: cur) cs
      else if cur.isEmpty then digitRunsAux [] cs
      else String.mk cur.reverse :: digitRunsAux [] cs

/-- Models `re.findall(r'\d+', text)`: the maximal digit runs, left to right. -/
def digitRuns (s : String) : List String := digitRunsAux [] s.data

/-- Helper for `re.findall(r'\+\d+', text)` followed by stripping the plus:
state none = scanning, some [] = just behind a plus sign, some (nonempty) =
inside a digit run that followed a plus sign. -/
def plusRunsAux : Option (List Char) → List Char → List String
  | some (c :: cur), [] => [String.mk (c :: cur).reverse]
  | none, [] => []
  | some [], [] => []
  | none, c :: cs => if c = '+' then plusRunsAux (some []) cs else plusRunsAux none cs
  | some [], c :: cs =>
      if c.isDigit then plusRunsAux (some [c]) cs
      else if c = '+' then plusRunsAux (some []) cs
      else plusRunsAux none cs
  | some (d :: cur), c :: cs =>
      if c.isDigit then plusRunsAux (some (c :: d :: cur)) cs
      else String.mk (d :: cur).reverse :: plusRunsAux (if c = '+' then some [] else none) cs

/-- Models `[m[1:] for m in re.findall(r'\+\d+', text)]`. -/
def plusRuns (s : String) : List String := plusRunsAux none s.data

/-- The single number the classifier of handle_all_group_b_messages acts on:
the first plus-prefixed number of the text, or, when there is none, the
first bare number. -/
def extractedNumber (s : String) : Option String :=
  match plusRuns s with
  | n :: _ => some n
  | [] => (digitRuns s).head?

/-- A value of the `forwarded_msgs` dict of bot.py (the correlation entry):
all creation sites populate every one of these keys. -/
structure MsgData where
  group_a_msg_id : Nat
  group_a_chat_id : Int
  group_b_msg_id : Nat
  group_b_chat_id : Int
  image_id : String
  amount : String
  number : String
  original_message_id : Option Nat
  is_click_mode : Bool
deriving Repr, DecidableEq

/-- A value of the `pending_custom_amounts` dict of bot.py.  The dict is
keyed by the custom-amount message id (stored again as original_msg_id);
creation order is the insertion order of the association list that models
the dict (the stored isoformat timestamp is written but never read). -/
structure PendingApproval where
  img_id : String
  amount : String
  responder : Int
  responder_name : String
  original_msg_id : Nat
  reply_to_msg_id : Option Nat
  message_text : String
deriving Repr, DecidableEq

/-- Reified side effects of the handlers: database writes
(setImageStatus, storeResponse, createPending) and outbound transport calls
(the rest).  sendToA is the relay into the source room, sendToB the
out-of-band notice into the fulfillment room, replyInChat a reply in the
chat the inbound message came from; notifyAdmins stands for the per-admin
private notifications of the approval workflow. -/
inductive Effect where
  | storeResponse (img : String) (text : String)
  | setImageStatus (img : String) (status : String)
  | editMessage (chat : Int) (msg : Nat) (text : String)
  | scheduleDeletion (chat : Int) (msg : Nat) (delaySeconds : Nat)
  | sendToA (chat : Int) (text : String) (replyTo : Nat)
  | sendToB (chat : Int) (text : String) (replyTo : Option Nat)
  | replyInChat (text : String)
  | createPending (key : Nat) (entry : PendingApproval)
  | notifyAdmins (originalAmount : String) (customAmount : String)
deriving Repr, DecidableEq

/-- The fixed no-show message relayed to the source room. -/
def noShowText : String := "会员没进群呢哥哥~ 😢"

/-- `reply_to_message_id = original_message_id if original_message_id else data['group_a_msg_id']`. -/
def replyTargetA (d : MsgData) : Nat := d.original_message_id.getD d.group_a_msg_id

/-- bot.process_group_b_response as an effect list: store the response,
reopen the image, edit or schedule deletion of the fulfillment-room message
depending on click mode, and relay to the source room when forwarding is
enabled. -/
def process_group_b_response (fwdEnabled : Bool) (img : String) (d : MsgData)
    (number orig : String) : List Effect :=
  let isZero := number == "0" || orig == "+0" || orig == "0"
  let response := if isZero then noShowText
    else if strContainsSub orig "+" then orig else "+" ++ number
  [Effect.storeResponse img response, Effect.setImageStatus img "open"]
  ++ (if d.is_click_mode then [Effect.scheduleDeletion d.group_b_chat_id d.group_b_msg_id 60]
      else [Effect.editMessage d.group_b_chat_id d.group_b_msg_id
        (if isZero then "群" ++ d.number ++ " (取消/退出/没进/自定义金额)"
         else "群" ++ d.number)])
  ++ (if fwdEnabled then [Effect.sendToA d.group_a_chat_id response (replyTargetA d)] else [])

/-- bot.handle_custom_amount: record the pending approval keyed by the
message id, announce it in the fulfillment room and notify the global
admins. -/
def handle_custom_amount (msgId : Nat) (replyTo : Option Nat) (userId : Int)
    (userName text : String) (d : MsgData) (img : String) (number : String) : List Effect :=
  [Effect.createPending msgId ⟨img, number, userId, userName, msgId, replyTo, text⟩,
   Effect.replyInChat ("👤 用户 " ++ userName ++ " 提交的自定义金额 +" ++ number
     ++ " 需要全局管理员确认"),
   Effect.notifyAdmins d.amount number]

/-- The lookup `for img_id, data in forwarded_msgs.items(): if
data.get('group_b_msg_id') == reply_msg_id` (first hit in insertion order). -/
def findByGroupBMsg (fwd : List (String × MsgData)) (r : Nat) : Option (String × MsgData) :=
  fwd.find? (fun q => q.2.group_b_msg_id == r)

/-- bot.handle_all_group_b_messages.  The "+0"/"0" special case runs first
and needs no admin check; then, for replies to a tracked fulfillment-room
message, the first plus-prefixed number (else the first bare number) is
classified against the stored amount and label, unknown numbers going to
the custom-amount path only for admins.  Non-reply messages fall through to
other handlers or are silently ignored, producing no effects here either
way. -/
def handle_all_group_b_messages (fwd : List (String × MsgData)) (fwdEnabled : Bool)
    (isGroupAdminSender isGlobalAdminSender : Bool) (msgId : Nat) (rawText : String)
    (replyTo : Option Nat) (userId : Int) (userName : String) : List Effect :=
  let text := pyStrip rawText
  if text == "" then []
  else
    let special :=
      if text == "+0" || text == "0" then
        match replyTo with
        | some r => findByGroupBMsg fwd r
        | none => none
      else none
    match special with
    | some (img, d) =>
        [Effect.storeResponse img "+0", Effect.setImageStatus img "open"]
        ++ (if d.is_click_mode then
              [Effect.scheduleDeletion d.group_b_chat_id d.group_b_msg_id 60]
            else [Effect.editMessage d.group_b_chat_id d.group_b_msg_id
              ("群" ++ d.number ++ " (取消/退出/没进/自定义金额)")])
        ++ (if fwdEnabled then
              [Effect.sendToA d.group_a_chat_id noShowText (replyTargetA d)]
            else [])
    | none =>
        match replyTo with
        | some r =>
            match findByGroupBMsg fwd r with
            | some (img, d) =>
                match plusRuns text with
                | n :: _ =>
                    if n == d.amount then
                      process_group_b_response fwdEnabled img d n ("+" ++ n)
                    else if n == d.number then []
                    else if isGroupAdminSender || isGlobalAdminSender then
                      handle_custom_amount msgId replyTo userId userName text d img n
                    else []
                | [] =>
                    match digitRuns text with
                    | n :: _ =>
                        if n == d.amount then
                          process_group_b_response fwdEnabled img d n ("+" ++ n)
                        else if n == d.number then []
                        else if isGroupAdminSender || isGlobalAdminSender then
                          handle_custom_amount msgId replyTo userId userName text d img n
                        else []
                    | [] => []
            | none => []
        | none => []

/-- `sorted(forwarded_msgs.items(), key=..get('group_b_msg_id', 0), reverse=True)[0]`:
Python's sort is stable, so this is the first entry in insertion order
holding the maximal target-message id. -/
def mostRecentByMsgId (fwd : List (String × MsgData)) : Option (String × MsgData) :=
  fwd.find? (fun q => q.2.group_b_msg_id == fwd.foldr (fun x acc => max x.2.group_b_msg_id acc) 0)

/-- The `for number in numbers` loop of bot.handle_general_group_b_message:
for each extracted number in order, first the reply link is tried, then the
entries in insertion order, each checked on expected amount and then label;
none returned means the loop fell through. -/
def generalScan (fwd : List (String × MsgData)) (fwdEnabled : Bool) (text : String)
    (replyTo : Option Nat) : List String → Option (List Effect)
  | [] => none
  | n :: rest =>
      let respText := if strContainsSub text "+" then text else "+" ++ n
      let byNumber :=
        match fwd.find? (fun q => n == q.2.amount || n == q.2.number) with
        | some (img, d) => some (process_group_b_response fwdEnabled img d n respText)
        | none => generalScan fwd fwdEnabled text replyTo rest
      match replyTo with
      | some r =>
          match findByGroupBMsg fwd r with
          | some (img, d) => some (process_group_b_response fwdEnabled img d n respText)
          | none => byNumber
      | none => byNumber

/-- bot.handle_general_group_b_message: number extraction, the scan loop,
and the most-recent fallback used only when the text holds exactly one
number and some correlation entry exists. -/
def handle_general_group_b_message (fwd : List (String × MsgData)) (fwdEnabled : Bool)
    (rawText : String) (replyTo : Option Nat) : List Effect :=
  let text := pyStrip rawText
  let numbers := digitRuns text
  if numbers.isEmpty then []
  else
    match generalScan fwd fwdEnabled text replyTo numbers with
    | some effects => effects
    | none =>
        match numbers with
        | [n] =>
            match mostRecentByMsgId fwd with
            | some (img, d) =>
                process_group_b_response fwdEnabled img d n
                  (if strContainsSub text "+" then text else "+" ++ n)
            | none => []
        | _ => []

def notFoundText : String := "⚠️ 没有找到此消息的待审批记录。请检查是否回复了正确的消息。"

def noPendingText : String := "没有待审批的自定义金额。"

def noImageText : String := "无法找到相关图片信息，批准失败。"

/-- `max(pending_custom_amounts.keys())` (0 on the empty dict, unused). -/
def maxKey (pending : List (Nat × PendingApproval)) : Nat :=
  pending.foldr (fun q m => max q.1 m) 0

/-- bot.process_custom_amount_approval: reopen the slot, relay the approved
amount when forwarding is enabled, post the confirmation notice, and delete
the pending entry (`del pending_custom_amounts[msg_id]`, guarded by the
membership test the code performs).  Transport failures and entries lacking
source-room ids are outside the model: MsgData always carries them. -/
def process_custom_amount_approval (fwd : List (String × MsgData)) (fwdEnabled : Bool)
    (isPrivate : Bool) (approverName : String) (k : Nat) (p : PendingApproval)
    (pending : List (Nat × PendingApproval)) :
    List (Nat × PendingApproval) × List Effect :=
  match fwd.find? (fun q => q.1 == p.img_id) with
  | some (_, m) =>
      let response := "+" ++ p.amount
      let base := [Effect.storeResponse p.img_id response,
                   Effect.setImageStatus p.img_id "open"]
      let sendA := if fwdEnabled then
          [Effect.sendToA m.group_a_chat_id response (replyTargetA m)]
        else []
      let confirm :=
        if isPrivate then
          [Effect.sendToB m.group_b_chat_id
            ("✅ 金额确认修改：+" ++ p.amount ++ " (由管理员 " ++ approverName ++ " 批准)")
            p.reply_to_msg_id]
        else [Effect.replyInChat ("✅ 金额确认修改：+" ++ p.amount)]
      let pending2 := if (pending.find? (fun q => q.1 == k)).isSome then
          pending.filter (fun q => q.1 != k)
        else pending
      (pending2, base ++ sendA ++ confirm)
  | none => (pending, [Effect.replyInChat noImageText])

/-- bot.handle_custom_amount_approval: only global admins replying with an
affirmation token; in a private chat the pending approval with the largest
key (message id) is resolved; in a group chat the search order is direct
key match, stored message-id match, then textual containment of
"+amount" in the replied-to message, with a not-found notice otherwise. -/
def handle_custom_amount_approval (pending : List (Nat × PendingApproval))
    (fwd : List (String × MsgData)) (fwdEnabled : Bool) (isGlobalAdminSender : Bool)
    (isPrivate : Bool) (text : String) (replyTo : Option Nat) (replyText : String)
    (approverName : String) : List (Nat × PendingApproval) × List Effect :=
  if !isGlobalAdminSender then (pending, [])
  else
    match replyTo with
    | none => (pending, [])
    | some r =>
        if !(strContainsSub text "同意" || strContainsSub text "确认") then (pending, [])
        else if isPrivate then
          match pending with
          | [] => (pending, [Effect.replyInChat noPendingText])
          | _ :: _ =>
              match pending.find? (fun q => q.1 == maxKey pending) with
              | some (k, p) =>
                  process_custom_amount_approval fwd fwdEnabled isPrivate approverName k p pending
              | none => (pending, [])
        else
          match pending.find? (fun q => q.1 == r) with
          | some (k, p) =>
              process_custom_amount_approval fwd fwdEnabled isPrivate approverName k p pending
          | none =>
              match pending.find? (fun q =>
                  q.2.original_msg_id == r || q.2.reply_to_msg_id == some r) with
              | some (k, p) =>
                  process_custom_amount_approval fwd fwdEnabled isPrivate approverName k p pending
              | none =>
                  match pending.find? (fun q =>
                      strContainsSub replyText ("+" ++ q.2.amount)) with
                  | some (k, p) =>
                      process_custom_amount_approval fwd fwdEnabled isPrivate approverName k p pending
                  | none => (pending, [Effect.replyInChat notFoundText])

theorem string_data_append (a b : String) : (a ++ b).data = a.data ++ b.data := rfl

theorem plus_append_inj {s t : String} (h : "+" ++ s = "+" ++ t) : s = t := by
  cases s with
  | mk sd =>
      cases t with
      | mk td =>
          have hd : '+' :: sd = '+' :: td := congrArg String.data h
          simp only [List.cons.injEq, true_and] at hd
          rw [hd]

theorem plus_append_ne_zero (s : String) : ("+" ++ s) ≠ "0" := by
  intro h
  have hd : '+' :: s.data = ['0'] := congrArg String.data h
  simp at hd

theorem strContainsSub_plus (s : String) : strContainsSub ("+" ++ s) "+" = true := by
  have : ("+" ++ s).data = '+' :: s.data := rfl
  simp only [strContainsSub, this, decide_eq_true_eq]
  exact ⟨[], s.data, rfl⟩

/-- The zero test of process_group_b_response is false for a nonzero number
passed with its canonical "+n" original text. -/
theorem isZero_false {n : String} (hnz : n ≠ "0") :
    (n == "0" || ("+" ++ n) == "+0" || ("+" ++ n) == "0") = false := by
  have h1 : (n == "0") = false := by simpa using hnz
  have h2 : (("+" ++ n) == "+0") = false := by
    have : ("+" ++ n) ≠ "+0" := fun hc => hnz (plus_append_inj hc)
    simpa using this
  have h3 : (("+" ++ n) == "0") = false := by
    simpa using plus_append_ne_zero n
  rw [h1, h2, h3]
  rfl

/-- Recognizer for the relay-to-source-room effect. -/
def isSendToA : Effect → Bool
  | Effect.sendToA _ _ _ => true
  | _ => false

/-- The effects of the confirm path: slot reopened, response "+n" stored,
and the relay filter yields exactly the single "+n" relay when forwarding
is enabled and nothing otherwise. -/
theorem process_response_spec {n : String} (hnz : n ≠ "0") (fwdEnabled : Bool)
    (img : String) (d : MsgData) :
    Effect.setImageStatus img "open" ∈ process_group_b_response fwdEnabled img d n ("+" ++ n)
    ∧ Effect.storeResponse img ("+" ++ n) ∈ process_group_b_response fwdEnabled img d n ("+" ++ n)
    ∧ (process_group_b_response fwdEnabled img d n ("+" ++ n)).filter isSendToA
        = (if fwdEnabled then [Effect.sendToA d.group_a_chat_id ("+" ++ n) (replyTargetA d)]
           else []) := by
  unfold process_group_b_response
  rw [isZero_false hnz, strContainsSub_plus]
  cases hc : d.is_click_mode <;> cases hf : fwdEnabled <;>
    simp [isSendToA, List.filter]

/-- C2 amended (confirm path): when a fulfillment-room message replying to
the tracked target message carries the number n the classifier extracts
(first plus-prefixed, else first bare number), n equals the stored expected
amount, and n is not 0, then the handler reopens the slot, records "+n",
and the relay sent into the recorded source room is exactly "+n" — sent
precisely when the forwarding flag is on. -/
theorem confirm_path_opens_and_relays
    {fwd : List (String × MsgData)} {fwdEnabled ga gb : Bool} {msgId : Nat}
    {rawText : String} {r : Nat} {userId : Int} {userName : String}
    {img : String} {d : MsgData}
    (hfind : findByGroupBMsg fwd r = some (img, d))
    (hnum : extractedNumber (pyStrip rawText) = some d.amount)
    (hnz : d.amount ≠ "0") :
    Effect.setImageStatus img "open"
        ∈ handle_all_group_b_messages fwd fwdEnabled ga gb msgId rawText (some r) userId userName
    ∧ Effect.storeResponse img ("+" ++ d.amount)
        ∈ handle_all_group_b_messages fwd fwdEnabled ga gb msgId rawText (some r) userId userName
    ∧ (handle_all_group_b_messages fwd fwdEnabled ga gb msgId rawText
          (some r) userId userName).filter isSendToA
        = (if fwdEnabled then [Effect.sendToA d.group_a_chat_id ("+" ++ d.amount) (replyTargetA d)]
           else []) := by
  have hne : (pyStrip rawText == "") = false := by
    have : pyStrip rawText ≠ "" := by
      intro hc
      rw [hc] at hnum
      exact Option.noConfusion hnum
    simpa using this
  have h0 : (pyStrip rawText == "0") = false := by
    have : pyStrip rawText ≠ "0" := by
      intro hc
      rw [hc] at hnum
      have he : extractedNumber "0" = some "0" := rfl
      rw [he] at hnum
      exact hnz (Option.some.inj hnum).symm
    simpa using this
  have hp0 : (pyStrip rawText == "+0") = false := by
    have : pyStrip rawText ≠ "+0" := by
      intro hc
      rw [hc] at hnum
      have he : extractedNumber "+0" = some "0" := rfl
      rw [he] at hnum
      exact hnz (Option.some.inj hnum).symm
    simpa using this
  have hout : handle_all_group_b_messages fwd fwdEnabled ga gb msgId rawText (some r) userId userName
      = process_group_b_response fwdEnabled img d d.amount ("+" ++ d.amount) := by
    cases hp : plusRuns (pyStrip rawText) with
    | cons n rest =>
        have hn : n = d.amount := by
          rw [extractedNumber, hp] at hnum
          exact Option.some.inj hnum
        subst hn
        simp [handle_all_group_b_messages, hne, hp0, h0, hfind, hp]
    | nil =>
        cases hr : digitRuns (pyStrip rawText) with
        | nil =>
            rw [extractedNumber, hp, hr] at hnum
            exact absurd hnum (by simp)
        | cons n rest =>
            have hn : n = d.amount := by
              rw [extractedNumber, hp, hr] at hnum
              exact Option.some.inj hnum
            subst hn
            simp [handle_all_group_b_messages, hne, hp0, h0, hfind, hp, hr]
  rw [hout]
  exact process_response_spec hnz fwdEnabled img d

/-- Witness for the confirm-path theorem: a linked reply "25" to a slot
expecting 25 reopens it and relays "+25". -/
theorem confirm_path_opens_and_relays_witness :
    Effect.setImageStatus "a" "open"
        ∈ handle_all_group_b_messages [("a", ⟨10, 50, 5, 60, "a", "25", "7", none, false⟩)]
            true false false 99 "25" (some 5) 1 "u"
    ∧ Effect.storeResponse "a" "+25"
        ∈ handle_all_group_b_messages [("a", ⟨10, 50, 5, 60, "a", "25", "7", none, false⟩)]
            true false false 99 "25" (some 5) 1 "u"
    ∧ (handle_all_group_b_messages [("a", ⟨10, 50, 5, 60, "a", "25", "7", none, false⟩)]
          true false false 99 "25" (some 5) 1 "u").filter isSendToA
        = [Effect.sendToA 50 "+25" 10] := by
  have h := @confirm_path_opens_and_relays
    [("a", ⟨10, 50, 5, 60, "a", "25", "7", none, false⟩)]
    true false false 99 "25" 5 1 "u" "a" ⟨10, 50, 5, 60, "a", "25", "7", none, false⟩
    (by rfl) (by rfl) (by decide)
  simpa using h

/-- C2 as stated is false: with a tracked entry whose stored expected amount
is "0" (reachable: bot.handle_admin_reply stores amount "0" when the
original message holds no number), the linked reply "0" contains a number
equal to the expected amount, and the handler does reopen the slot — but it
relays the fixed no-show text, not "+0". -/
theorem confirm_claim_counterexample :
    extractedNumber (pyStrip "0") = some "0"
    ∧ handle_all_group_b_messages [("a", ⟨10, 50, 5, 60, "a", "0", "7", none, false⟩)]
        true false false 99 "0" (some 5) 1 "u"
      = [Effect.storeResponse "a" "+0", Effect.setImageStatus "a" "open",
         Effect.editMessage 60 5 "群7 (取消/退出/没进/自定义金额)",
         Effect.sendToA 50 noShowText 10]
    ∧ noShowText ≠ "+0" := by
  refine ⟨rfl, rfl, by decide⟩

/-- C7 amended (unauthorized custom amount): a non-admin reply to the
tracked target message whose extracted number matches neither the stored
amount nor the label — and whose text is not exactly "0" or "+0", which
would take the unauthenticated no-show path instead — produces no effects
at all: no database write, no pending approval, no outbound message. -/
theorem unauthorized_custom_silent
    {fwd : List (String × MsgData)} {fwdEnabled : Bool} {msgId : ℕ}
    {rawText : String} {r : ℕ} {userId : ℤ} {userName : String}
    {img : String} {d : MsgData} {n : String}
    (hfind : findByGroupBMsg fwd r = some (img, d))
    (hnum : extractedNumber (pyStrip rawText) = some n)
    (hna : n ≠ d.amount) (hnn : n ≠ d.number)
    (ht0 : pyStrip rawText ≠ "0") (htp0 : pyStrip rawText ≠ "+0") :
    handle_all_group_b_messages fwd fwdEnabled false false msgId rawText
      (some r) userId userName = [] := by
  have hne : (pyStrip rawText == "") = false := by
    have : pyStrip rawText ≠ "" := by
      intro hc
      rw [hc] at hnum
      exact Option.noConfusion hnum
    simpa using this
  have h0 : (pyStrip rawText == "0") = false := by simpa using ht0
  have hp0 : (pyStrip rawText == "+0") = false := by simpa using htp0
  have hna2 : (n == d.amount) = false := by simpa using hna
  have hnn2 : (n == d.number) = false := by simpa using hnn
  cases hp : plusRuns (pyStrip rawText) with
  | cons m rest =>
      have hm : m = n := by
        rw [extractedNumber, hp] at hnum
        exact Option.some.inj hnum
      subst hm
      simp [handle_all_group_b_messages, hne, hp0, h0, hfind, hp, hna2, hnn2]
  | nil =>
      cases hr : digitRuns (pyStrip rawText) with
      | nil =>
          rw [extractedNumber, hp, hr] at hnum
          exact absurd hnum (by simp)
      | cons m rest =>
          have hm : m = n := by
            rw [extractedNumber, hp, hr] at hnum
            exact Option.some.inj hnum
          subst hm
          simp [handle_all_group_b_messages, hne, hp0, h0, hfind, hp, hr, hna2, hnn2]

/-- Witness for the unauthorized-custom-amount theorem: a non-admin linked
reply "99" (amount 25, label 7) produces no effects. -/
theorem unauthorized_custom_silent_witness :
    handle_all_group_b_messages [("a", ⟨10, 50, 5, 60, "a", "25", "7", none, false⟩)]
      true false false 99 "99" (some 5) 1 "u" = [] :=
  unauthorized_custom_silent (by rfl) (by rfl) (by decide) (by decide) (by decide) (by decide)

/-- C7 as stated is false: a non-admin reply of exactly "0" — a number that
equals neither the stored amount 25 nor the label 7 — does change state:
the no-show special case runs without any admin check, reopening the slot
and relaying the no-show text. -/
theorem unauthorized_zero_counterexample :
    ("0" : String) ≠ "25" ∧ ("0" : String) ≠ "7"
    ∧ handle_all_group_b_messages [("a", ⟨10, 50, 5, 60, "a", "25", "7", none, false⟩)]
        true false false 99 "0" (some 5) 1 "u"
      = [Effect.storeResponse "a" "+0", Effect.setImageStatus "a" "open",
         Effect.editMessage 60 5 "群7 (取消/退出/没进/自定义金额)",
         Effect.sendToA 50 noShowText 10] :=
  ⟨by decide, by decide, rfl⟩

/-- C8 amended (label-echo guard): a reply to the tracked target message
whose extracted number equals the stored label but not the expected amount
— the label being nonzero, since the texts "0"/"+0" take the no-show path
first — produces no effects whatever the sender's admin standing. -/
theorem label_echo_guard
    {fwd : List (String × MsgData)} {fwdEnabled ga gb : Bool} {msgId : ℕ}
    {rawText : String} {r : ℕ} {userId : ℤ} {userName : String}
    {img : String} {d : MsgData} {n : String}
    (hfind : findByGroupBMsg fwd r = some (img, d))
    (hnum : extractedNumber (pyStrip rawText) = some n)
    (hlab : n = d.number) (hnamt : n ≠ d.amount) (hnz : n ≠ "0") :
    handle_all_group_b_messages fwd fwdEnabled ga gb msgId rawText
      (some r) userId userName = [] := by
  have hne : (pyStrip rawText == "") = false := by
    have : pyStrip rawText ≠ "" := by
      intro hc
      rw [hc] at hnum
      exact Option.noConfusion hnum
    simpa using this
  have h0 : (pyStrip rawText == "0") = false := by
    have : pyStrip rawText ≠ "0" := by
      intro hc
      rw [hc] at hnum
      have he : extractedNumber "0" = some "0" := rfl
      rw [he] at hnum
      exact hnz (Option.some.inj hnum).symm
    simpa using this
  have hp0 : (pyStrip rawText == "+0") = false := by
    have : pyStrip rawText ≠ "+0" := by
      intro hc
      rw [hc] at hnum
      have he : extractedNumber "+0" = some "0" := rfl
      rw [he] at hnum
      exact hnz (Option.some.inj hnum).symm
    simpa using this
  have hna2 : (n == d.amount) = false := by simpa using hnamt
  have hlab2 : (n == d.number) = true := by simpa using hlab
  cases hp : plusRuns (pyStrip rawText) with
  | cons m rest =>
      have hm : m = n := by
        rw [extractedNumber, hp] at hnum
        exact Option.some.inj hnum
      subst hm
      simp [handle_all_group_b_messages, hne, hp0, h0, hfind, hp, hna2, hlab2]
  | nil =>
      cases hr : digitRuns (pyStrip rawText) with
      | nil =>
          rw [extractedNumber, hp, hr] at hnum
          exact absurd hnum (by simp)
      | cons m rest =>
          have hm : m = n := by
            rw [extractedNumber, hp, hr] at hnum
            exact Option.some.inj hnum
          subst hm
          simp [handle_all_group_b_messages, hne, hp0, h0, hfind, hp, hr, hna2, hlab2]

/-- Witness for the label-echo theorem: an admin linked reply "7" equal to
the label and different from the amount 25 produces no effects. -/
theorem label_echo_guard_witness :
    handle_all_group_b_messages [("a", ⟨10, 50, 5, 60, "a", "25", "7", none, false⟩)]
      true true true 99 "7" (some 5) 1 "u" = [] :=
  label_echo_guard (by rfl) (by rfl) (by decide) (by decide) (by decide)

/-- C8 as stated is false when the stored label is "0" (labels come from the
admin command 设置群 and may be 0): a linked reply "0" equals the label and
differs from the amount 25, yet the no-show special case reopens the slot
instead of leaving it closed. -/
theorem label_echo_zero_counterexample :
    ("0" : String) ≠ "25"
    ∧ handle_all_group_b_messages [("a", ⟨10, 50, 5, 60, "a", "25", "0", none, false⟩)]
        false false false 99 "0" (some 5) 1 "u"
      = [Effect.storeResponse "a" "+0", Effect.setImageStatus "a" "open",
         Effect.editMessage 60 5 "群0 (取消/退出/没进/自定义金额)"] :=
  ⟨by decide, rfl⟩

/-- C10 (no-show path needs no authorization): a reply of exactly "0" or
"+0" to the tracked target message — whatever the sender's admin flags and
whatever the stored amount and label — reopens the slot, records the "+0"
response, edits or schedules deletion of the target message, and relays the
no-show text when forwarding is on; the admin flags and the stored
amount/label play no part in the outcome. -/
theorem noshow_requires_no_auth
    {fwd : List (String × MsgData)} {fwdEnabled : Bool} {msgId : ℕ}
    {rawText : String} {r : ℕ} {userId : ℤ} {userName : String}
    {img : String} {d : MsgData} (ga gb : Bool)
    (htext : pyStrip rawText = "0" ∨ pyStrip rawText = "+0")
    (hfind : findByGroupBMsg fwd r = some (img, d)) :
    handle_all_group_b_messages fwd fwdEnabled ga gb msgId rawText (some r) userId userName
      = [Effect.storeResponse img "+0", Effect.setImageStatus img "open"]
        ++ (if d.is_click_mode then
              [Effect.scheduleDeletion d.group_b_chat_id d.group_b_msg_id 60]
            else [Effect.editMessage d.group_b_chat_id d.group_b_msg_id
              ("群" ++ d.number ++ " (取消/退出/没进/自定义金额)")])
        ++ (if fwdEnabled then
              [Effect.sendToA d.group_a_chat_id noShowText (replyTargetA d)]
            else [])
    ∧ Effect.setImageStatus img "open"
        ∈ handle_all_group_b_messages fwd fwdEnabled ga gb msgId rawText (some r) userId userName
    ∧ Effect.storeResponse img "+0"
        ∈ handle_all_group_b_messages fwd fwdEnabled ga gb msgId rawText (some r) userId userName := by
  have hout : handle_all_group_b_messages fwd fwdEnabled ga gb msgId rawText (some r) userId userName
      = [Effect.storeResponse img "+0", Effect.setImageStatus img "open"]
        ++ (if d.is_click_mode then
              [Effect.scheduleDeletion d.group_b_chat_id d.group_b_msg_id 60]
            else [Effect.editMessage d.group_b_chat_id d.group_b_msg_id
              ("群" ++ d.number ++ " (取消/退出/没进/自定义金额)")])
        ++ (if fwdEnabled then
              [Effect.sendToA d.group_a_chat_id noShowText (replyTargetA d)]
            else []) := by
    rcases htext with h | h <;>
      simp [handle_all_group_b_messages, h, hfind]
  refine ⟨hout, ?_, ?_⟩ <;> rw [hout] <;> simp

/-- Witness for the no-show theorem: a non-admin sends " 0 " (stripped to
"0") as a linked reply; the slot, whose amount is 25 and label 7, reopens. -/
theorem noshow_requires_no_auth_witness :
    Effect.setImageStatus "a" "open"
      ∈ handle_all_group_b_messages [("a", ⟨10, 50, 5, 60, "a", "25", "7", none, false⟩)]
          true false false 99 " 0 " (some 5) 1 "u" :=
  (noshow_requires_no_auth false false (Or.inl (by rfl)) (by rfl)).2.1

theorem generalScan_append_none {fwd : List (String × MsgData)} {fwdEnabled : Bool}
    {text : String} (pre : List String)
    (h : ∀ m ∈ pre, fwd.find? (fun q => m == q.2.amount || m == q.2.number) = none) :
    ∀ l, generalScan fwd fwdEnabled text none (pre ++ l) =
      generalScan fwd fwdEnabled text none l := by
  induction pre with
  | nil => intro l; rfl
  | cons m rest ih =>
      intro l
      have hm := h m (List.mem_cons_self m rest)
      have hrest := ih fun x hx => h x (List.mem_cons_of_mem m hx)
      simp only [List.cons_append, generalScan, hm]
      exact hrest l

/-- C6 amended (unlinked matching): the reconciler tries the extracted
numbers in text order and, for each, the entries in insertion order,
checking each entry's expected amount and then its label; the first hit is
processed (so an earlier entry's label match beats a later entry's amount
match); only when no (number, entry) pair matches and the text holds
exactly one number does it fall back to the entry with the highest
target-message id; with no match and not exactly one number, nothing
happens. -/
theorem general_unlinked_matching (fwd : List (String × MsgData)) (fwdEnabled : Bool)
    (rawText : String) :
    (∀ pre n rest img d, digitRuns (pyStrip rawText) = pre ++ n :: rest →
        (∀ m ∈ pre, fwd.find? (fun q => m == q.2.amount || m == q.2.number) = none) →
        fwd.find? (fun q => n == q.2.amount || n == q.2.number) = some (img, d) →
        handle_general_group_b_message fwd fwdEnabled rawText none
          = process_group_b_response fwdEnabled img d n
              (if strContainsSub (pyStrip rawText) "+" then pyStrip rawText else "+" ++ n))
    ∧ (∀ n img d, digitRuns (pyStrip rawText) = [n] →
        fwd.find? (fun q => n == q.2.amount || n == q.2.number) = none →
        mostRecentByMsgId fwd = some (img, d) →
        handle_general_group_b_message fwd fwdEnabled rawText none
          = process_group_b_response fwdEnabled img d n
              (if strContainsSub (pyStrip rawText) "+" then pyStrip rawText else "+" ++ n))
    ∧ ((∀ m ∈ digitRuns (pyStrip rawText),
          fwd.find? (fun q => m == q.2.amount || m == q.2.number) = none) →
        (digitRuns (pyStrip rawText)).length ≠ 1 →
        handle_general_group_b_message fwd fwdEnabled rawText none = []) := by
  refine ⟨?_, ?_, ?_⟩
  · intro pre n rest img d hsplit hpre hfindn
    have hscan : generalScan fwd fwdEnabled (pyStrip rawText) none
        (digitRuns (pyStrip rawText)) = some (process_group_b_response fwdEnabled img d n
          (if strContainsSub (pyStrip rawText) "+" then pyStrip rawText else "+" ++ n)) := by
      rw [hsplit, generalScan_append_none pre hpre]
      simp [generalScan, hfindn]
    have hne : (digitRuns (pyStrip rawText)).isEmpty = false := by
      rw [hsplit]
      cases pre <;> rfl
    simp [handle_general_group_b_message, hne, hscan]
  · intro n img d hone hfindn hmr
    have hscan : generalScan fwd fwdEnabled (pyStrip rawText) none
        (digitRuns (pyStrip rawText)) = none := by
      rw [hone]
      simp [generalScan, hfindn]
    rw [hone] at hscan
    simp [handle_general_group_b_message, hone, hscan, hmr]
  · intro hall hlen
    have hscan : generalScan fwd fwdEnabled (pyStrip rawText) none
        (digitRuns (pyStrip rawText)) = none := by
      have := @generalScan_append_none fwd fwdEnabled
        (pyStrip rawText) (digitRuns (pyStrip rawText)) hall []
      simpa using this
    rcases hns : digitRuns (pyStrip rawText) with _ | ⟨n, _ | ⟨m, rest⟩⟩
    · simp [handle_general_group_b_message, hns]
    · rw [hns] at hlen
      simp at hlen
    · rw [hns] at hscan
      simp [handle_general_group_b_message, hns, hscan]

/-- Witness for the unlinked-matching theorem: the single number "99"
matches the sole entry by expected amount and that entry is processed. -/
theorem general_unlinked_matching_witness :
    handle_general_group_b_message [("b", ⟨11, 50, 6, 61, "b", "99", "77", none, false⟩)]
        false "99" none
      = process_group_b_response false "b" ⟨11, 50, 6, 61, "b", "99", "77", none, false⟩ "99"
          (if strContainsSub (pyStrip "99") "+" then pyStrip "99" else "+" ++ "99") :=
  (general_unlinked_matching [("b", ⟨11, 50, 6, 61, "b", "99", "77", none, false⟩)]
      false "99").1 [] "99" [] "b" ⟨11, 50, 6, 61, "b", "99", "77", none, false⟩
    (by rfl) (by simp) (by rfl)

/-- C6 as stated is false: with entry "a" (amount 50, label 99) created
before entry "b" (amount 99, label 77), the unlinked message "99" is
matched to entry "a" through its label even though entry "b" matches by
expected amount — the scan checks amount and label per entry in insertion
order rather than all amounts first. -/
theorem general_precedence_counterexample :
    handle_general_group_b_message
        [("a", ⟨10, 50, 5, 60, "a", "50", "99", none, false⟩),
         ("b", ⟨11, 50, 6, 61, "b", "99", "77", none, false⟩)] false "99" none
      = [Effect.storeResponse "a" "+99", Effect.setImageStatus "a" "open",
         Effect.editMessage 60 5 "群99"]
    ∧ Effect.setImageStatus "b" "open"
        ∉ handle_general_group_b_message
            [("a", ⟨10, 50, 5, 60, "a", "50", "99", none, false⟩),
             ("b", ⟨11, 50, 6, 61, "b", "99", "77", none, false⟩)] false "99" none :=
  ⟨rfl, by decide⟩

/-- C5 (one-shot approval resolution, sequential semantics): resolving a
pending approval through a group-chat reply to its key deletes exactly that
entry and reopens the slot; a second attempt targeting the same key, with
no other pending entry matching it by stored message ids or by textual
containment of its "+amount", changes nothing and yields the not-found
notice. -/
theorem approval_one_shot
    {pending : List (ℕ × PendingApproval)} {fwd : List (String × MsgData)}
    {fwdEnabled : Bool} {k : ℕ} {p : PendingApproval} {em : String × MsgData}
    {text replyText approverName : String}
    (htok : (strContainsSub text "同意" || strContainsSub text "确认") = true)
    (hk : pending.find? (fun q => q.1 == k) = some (k, p))
    (himg : fwd.find? (fun q => q.1 == p.img_id) = some em) :
    Effect.setImageStatus p.img_id "open"
      ∈ (handle_custom_amount_approval pending fwd fwdEnabled true false text
          (some k) replyText approverName).2
    ∧ (handle_custom_amount_approval pending fwd fwdEnabled true false text
          (some k) replyText approverName).1
        = pending.filter (fun q => q.1 != k)
    ∧ ((∀ q ∈ pending.filter (fun q => q.1 != k),
          q.2.original_msg_id ≠ k ∧ q.2.reply_to_msg_id ≠ some k
          ∧ strContainsSub replyText ("+" ++ q.2.amount) = false) →
        handle_custom_amount_approval (pending.filter (fun q => q.1 != k)) fwd fwdEnabled
            true false text (some k) replyText approverName
          = (pending.filter (fun q => q.1 != k), [Effect.replyInChat notFoundText])) := by
  obtain ⟨ek, em2⟩ := em
  refine ⟨?_, ?_, ?_⟩
  · cases hf : fwdEnabled <;>
      simp [handle_custom_amount_approval, htok, hk, process_custom_amount_approval, himg]
  · simp [handle_custom_amount_approval, htok, hk, process_custom_amount_approval, himg]
  · intro hsec
    have hnone1 : (pending.filter (fun q => q.1 != k)).find? (fun q => q.1 == k) = none := by
      apply List.find?_eq_none.mpr
      intro x hx
      have hx2 := (List.mem_filter.mp hx).2
      simp at hx2 ⊢
      exact hx2
    have hnone2 : (pending.filter (fun q => q.1 != k)).find?
        (fun q => q.2.original_msg_id == k || q.2.reply_to_msg_id == some k) = none := by
      apply List.find?_eq_none.mpr
      intro x hx
      have h := hsec x hx
      simp [h.1, h.2.1]
    have hnone3 : (pending.filter (fun q => q.1 != k)).find?
        (fun q => strContainsSub replyText ("+" ++ q.2.amount)) = none := by
      apply List.find?_eq_none.mpr
      intro x hx
      have h := hsec x hx
      simp [h.2.2]
    simp [handle_custom_amount_approval, htok, hnone1, hnone2, hnone3]

/-- Witness for the one-shot theorem: after resolving the single pending
approval, the identical second attempt returns only the not-found notice. -/
theorem approval_one_shot_witness :
    handle_custom_amount_approval
        ([((7 : ℕ), (⟨"a", "99", 1, "r1", 7, some 5, "+99"⟩ : PendingApproval))].filter
          (fun q => q.1 != 7))
        [("a", ⟨10, 50, 5, 60, "a", "25", "7", none, false⟩)] false true false "同意"
        (some 7) "" "adm"
      = ([((7 : ℕ), (⟨"a", "99", 1, "r1", 7, some 5, "+99"⟩ : PendingApproval))].filter
          (fun q => q.1 != 7), [Effect.replyInChat notFoundText]) :=
  (@approval_one_shot [(7, ⟨"a", "99", 1, "r1", 7, some 5, "+99"⟩)]
    [("a", ⟨10, 50, 5, 60, "a", "25", "7", none, false⟩)] false
    7 ⟨"a", "99", 1, "r1", 7, some 5, "+99"⟩
    ("a", ⟨10, 50, 5, 60, "a", "25", "7", none, false⟩)
    "同意" "" "adm"
    (by decide) (by rfl) (by rfl)).2.2 (by decide)

theorem maxKey_cons (a : ℕ × PendingApproval) (t : List (ℕ × PendingApproval)) :
    maxKey (a :: t) = max a.1 (maxKey t) := rfl

theorem maxKey_ge (pending : List (ℕ × PendingApproval)) :
    ∀ q ∈ pending, q.1 ≤ maxKey pending := by
  induction pending with
  | nil => intro q hq; cases hq
  | cons a t ih =>
      intro q hq
      rw [maxKey_cons]
      rcases List.mem_cons.mp hq with h | h
      · subst h
        exact Nat.le_max_left _ _
      · have := ih q h
        omega

/-- C9 amended (private-context resolution): when a global approver sends an
affirmation token in a private chat and some approval is pending, the one
resolved is the entry found under the maximal key (message id) — an upper
bound of every pending key — not necessarily the most recently created
entry. -/
theorem private_approval_resolves_max_key
    {pending : List (ℕ × PendingApproval)} {fwd : List (String × MsgData)}
    {fwdEnabled : Bool} {text replyText approverName : String} {r k : ℕ}
    {p : PendingApproval}
    (hne : pending ≠ [])
    (htok : (strContainsSub text "同意" || strContainsSub text "确认") = true)
    (hfind : pending.find? (fun q => q.1 == maxKey pending) = some (k, p)) :
    (k, p) ∈ pending
    ∧ k = maxKey pending
    ∧ (∀ q ∈ pending, q.1 ≤ k)
    ∧ handle_custom_amount_approval pending fwd fwdEnabled true true text (some r)
          replyText approverName
        = process_custom_amount_approval fwd fwdEnabled true approverName k p pending := by
  have hmem : (k, p) ∈ pending := List.mem_of_find?_eq_some hfind
  have hkeq : k = maxKey pending := by
    have := List.find?_some hfind
    simpa using this
  refine ⟨hmem, hkeq, ?_, ?_⟩
  · intro q hq
    rw [hkeq]
    exact maxKey_ge pending q hq
  · rcases pending with _ | ⟨q0, rest⟩
    · exact absurd rfl hne
    · simp [handle_custom_amount_approval, htok, hfind]

/-- Witness for the max-key theorem at a single pending approval. -/
theorem private_approval_resolves_max_key_witness :
    handle_custom_amount_approval [((3 : ℕ), (⟨"a", "99", 1, "r1", 3, none, "m"⟩ : PendingApproval))]
        [("a", ⟨10, 50, 5, 60, "a", "25", "7", none, false⟩)] false true true "同意" (some 1)
        "" "adm"
      = process_custom_amount_approval [("a", ⟨10, 50, 5, 60, "a", "25", "7", none, false⟩)]
          false true "adm" 3 ⟨"a", "99", 1, "r1", 3, none, "m"⟩
          [(3, ⟨"a", "99", 1, "r1", 3, none, "m"⟩)] :=
  (@private_approval_resolves_max_key [(3, ⟨"a", "99", 1, "r1", 3, none, "m"⟩)]
    [("a", ⟨10, 50, 5, 60, "a", "25", "7", none, false⟩)] false
    "同意" "" "adm" 1 3 ⟨"a", "99", 1, "r1", 3, none, "m"⟩
    (by decide) (by decide) (by rfl)).2.2.2

/-- C9 as stated is false: approvals are keyed by per-chat message ids, so
the key order need not follow creation order.  Here the approval created
first (key 100, slot "a") and the one created second (key 50, slot "b",
last in insertion order) are both pending; the private-context resolution
picks key 100 and reopens slot "a", not the most recently created entry. -/
theorem private_approval_recency_counterexample :
    handle_custom_amount_approval
        [(100, ⟨"a", "111", 1, "r1", 100, none, "m1"⟩),
         (50, ⟨"b", "222", 2, "r2", 50, none, "m2"⟩)]
        [("a", ⟨10, 50, 5, 60, "a", "25", "7", none, false⟩),
         ("b", ⟨11, 50, 6, 61, "b", "26", "8", none, false⟩)]
        false true true "同意" (some 1) "" "adm"
      = ([(50, ⟨"b", "222", 2, "r2", 50, none, "m2"⟩)],
         [Effect.storeResponse "a" "+111", Effect.setImageStatus "a" "open",
          Effect.sendToB 60 "✅ 金额确认修改：+111 (由管理员 adm 批准)" none])
    ∧ Effect.setImageStatus "b" "open"
        ∉ (handle_custom_amount_approval
            [(100, ⟨"a", "111", 1, "r1", 100, none, "m1"⟩),
             (50, ⟨"b", "222", 2, "r2", 50, none, "m2"⟩)]
            [("a", ⟨10, 50, 5, 60, "a", "25", "7", none, false⟩),
             ("b", ⟨11, 50, 6, 61, "b", "26", "8", none, false⟩)]
            false true true "同意" (some 1) "" "adm").2 :=
  ⟨rfl, by decide⟩

end Spec2Proof
